import Mathlib

/-!
Verification development for the speedgo network-diagnostics engine.

The Go sources are shallowly embedded below:
* Go strings are modelled as `List Char` (Go byte lengths use UTF-8 sizes).
* `time.Duration` values (non-negative nanosecond counts produced by
  `time.Since`) are modelled as `Nat`.
* Go `int64` byte counters are modelled as `Int` (overflow is unreachable for
  realistic transfer sizes) and `float64` arithmetic is modelled over `ℚ`.
* Goroutine interaction (socket reads, channel receptions, context
  cancellation) is modelled by explicit event traces supplied as inputs.
-/

set_option autoImplicit false

namespace Speedgo

/-! ### Go string helpers (`strings.TrimSpace`, `strings.Split`) -/

/-- Model of Go `unicode.IsSpace` (the character classes trimmed by
`strings.TrimSpace`). -/
def goIsSpace (c : Char) : Bool :=
  c = ' ' || c = '\t' || c = '\n' || c.val = 11 || c.val = 12 || c = '\r' ||
  c.val = 0x85 || c.val = 0xA0 || c.val = 0x1680 ||
  (0x2000 ≤ c.val && c.val ≤ 0x200A) || c.val = 0x2028 || c.val = 0x2029 ||
  c.val = 0x202F || c.val = 0x205F || c.val = 0x3000

/-- Drop leading Go whitespace. -/
def trimLeft : List Char → List Char
  | [] => []
  | c :: cs => if goIsSpace c then trimLeft cs else c :: cs

/-- Model of Go `strings.TrimSpace`: drop leading and trailing whitespace. -/
def trimSpace (s : List Char) : List Char :=
  (trimLeft (trimLeft s.reverse).reverse)

/-- Model of Go `strings.Split` with a one-character separator: the list of
(possibly empty) segments between occurrences of `sep`. -/
def splitOnChar (sep : Char) : List Char → List (List Char)
  | [] => [[]]
  | c :: cs =>
    if c = sep then [] :: splitOnChar sep cs
    else
      match splitOnChar sep cs with
      | [] => [[c]]
      | h :: t => (c :: h) :: t

/-- Go byte length of a string (`len(s)` in Go counts UTF-8 bytes). -/
def goLen (s : List Char) : Nat :=
  (s.map Char.utf8Size).sum

/-! ### Model of `net.ParseIP` (Go standard library, netip-based parser) -/

/-- Decimal digit test used by the IPv4 parser. -/
def isDecDigit (c : Char) : Bool :=
  '0' ≤ c && c ≤ '9'

/-- Value of a hexadecimal digit, `none` for non-hex characters; written with
explicit code points, mirroring the byte arithmetic of the Go parser
(`c-'0'`, `c-'a'+10`, `c-'A'+10`). -/
def hexDigitVal (c : Char) : Option Nat :=
  let n := c.toNat
  if 48 ≤ n ∧ n ≤ 57 then some (n - 48)
  else if 97 ≤ n ∧ n ≤ 102 then some (n - 87)
  else if 65 ≤ n ∧ n ≤ 70 then some (n - 55)
  else none

/-- Field loop of Go `netip.parseIPv4`: `val` and `digLen` describe the field
being read, `fields` the completed fields. Rejects empty fields, fields with a
leading zero, values over 255, and a wrong number of fields. -/
def ipv4Fields : List Char → Nat → Nat → List Nat → Option (List Nat)
  | [], val, _, fields =>
    if fields.length < 3 then none else some (fields ++ [val])
  | c :: cs, val, digLen, fields =>
    if isDecDigit c then
      if digLen = 1 && val = 0 then none
      else
        let val2 := val * 10 + (c.toNat - '0'.toNat)
        if 255 < val2 then none else ipv4Fields cs val2 (digLen + 1) fields
    else if c = '.' then
      if digLen = 0 || cs.isEmpty || fields.length = 3 then none
      else ipv4Fields cs 0 0 (fields ++ [val])
    else none

/-- Model of Go `netip.parseIPv4`: the four octets on success. -/
def parseIPv4Go (s : List Char) : Option (List Nat) :=
  ipv4Fields s 0 0 []

/-- Consume a maximal run of hexadecimal digits, returning the accumulated
value, the number of digits and the remaining characters (the hex-group loop
of Go `netip.parseIPv6`; the in-loop overflow check is equivalent to checking
the final accumulator because the accumulator is monotone). -/
def takeHex : Nat → Nat → List Char → Nat × Nat × List Char
  | acc, off, [] => (acc, off, [])
  | acc, off, c :: cs =>
    match hexDigitVal c with
    | some v => takeHex (acc * 16 + v) (off + 1) cs
    | none => (acc, off, c :: cs)

/-- Main loop of Go `netip.parseIPv6`. `i` is the number of address bytes
already produced, `ell` the byte position of a `::` marker if one was seen,
`ip` the bytes produced so far. Returns the loop's exit state (bytes, count,
marker, unconsumed characters) or `none` on a parse error. The fuel argument
is sufficient because each iteration adds at least two bytes and the loop
stops at sixteen. -/
def parseIPv6Loop : Nat → Nat → Option Nat → List Nat → List Char →
    Option (List Nat × Nat × Option Nat × List Char)
  | 0, i, ell, ip, s => some (ip, i, ell, s)
  | n + 1, i, ell, ip, s =>
    if 16 ≤ i then some (ip, i, ell, s)
    else
      let t := takeHex 0 0 s
      let acc := t.1
      let off := t.2.1
      if off = 0 then none
      else if 65535 < acc then none
      else
        let ip2 := ip ++ [acc / 256, acc % 256]
        let i2 := i + 2
        match t.2.2 with
        | '.' :: _ =>
          if ell.isNone && !(i = 12) then none
          else if 16 < i + 4 then none
          else
            match parseIPv4Go s with
            | none => none
            | some f4 => some (ip ++ f4, i + 4, ell, [])
        | [] => some (ip2, i2, ell, [])
        | [':'] => none
        | ':' :: ':' :: rest2 =>
          if ell.isSome then none
          else
            match rest2 with
            | [] => some (ip2, i2, some i2, [])
            | _ :: _ => parseIPv6Loop n i2 (some i2) ip2 rest2
        | ':' :: c :: rest2 => parseIPv6Loop n i2 ell ip2 (c :: rest2)
        | _ => none

/-- Post-loop processing of Go `netip.parseIPv6`: reject trailing characters,
expand a `::` marker, and reject a `::` that expands to zero groups. -/
def finishIPv6 : Option (List Nat × Nat × Option Nat × List Char) →
    Option (List Nat)
  | none => none
  | some (ip, i, ell, s) =>
    if !s.isEmpty then none
    else if i < 16 then
      match ell with
      | none => none
      | some e => some (ip.take e ++ List.replicate (16 - i) 0 ++ ip.drop e)
    else if ell.isSome then none
    else some ip

/-- Model of Go `netip.parseIPv6` as used by `net.ParseIP`: a zone suffix is
rejected (`net.ParseIP` returns nil for any address carrying a zone). -/
def parseIPv6Go (s : List Char) : Option (List Nat) :=
  if s.contains '%' then none
  else
    match s with
    | ':' :: ':' :: rest =>
      if rest.isEmpty then some (List.replicate 16 0)
      else finishIPv6 (parseIPv6Loop 16 0 (some 0) [] rest)
    | _ => finishIPv6 (parseIPv6Loop 16 0 none [] s)

/-- Dispatch of Go `netip.ParseAddr`: the first of `.`, `:`, `%` decides the
address family; `%` or no marker at all is a parse failure. -/
def classifyIP : List Char → Option Bool
  | [] => none
  | c :: cs =>
    if c = '.' then some true
    else if c = ':' then some false
    else if c = '%' then none
    else classifyIP cs

/-- Model of Go `net.ParseIP`: `some bytes` when the literal parses (4 octets
for IPv4, 16 bytes for IPv6), `none` otherwise. -/
def parseIP (s : List Char) : Option (List Nat) :=
  match classifyIP s with
  | some true => parseIPv4Go s
  | some false => parseIPv6Go s
  | none => none

/-! ### Target resolver (`core/ping.go`) -/

/-- Model of `isValidHostname` in `core/ping.go`: non-empty, at most 255 Go
bytes, and free of the space character (the Go code calls
`strings.ContainsAny(hostname, " ")`, which looks only for `' '`). -/
def isValidHostname (hostname : List Char) : Bool :=
  if goLen hostname = 0 || 255 < goLen hostname then false
  else !hostname.contains ' '

/-- Keep condition of `splitTargets`: `net.ParseIP(target) != nil ||
isValidHostname(target)`. -/
def keepTarget (t : List Char) : Bool :=
  (parseIP t).isSome || isValidHostname t

/-- Loop body of `splitAndTrim`: trim each segment and keep the non-empty
ones, in order. -/
def collectTrimmed : List (List Char) → List (List Char)
  | [] => []
  | item :: rest =>
    let trimmed := trimSpace item
    if trimmed.isEmpty then collectTrimmed rest
    else trimmed :: collectTrimmed rest

/-- Model of `splitAndTrim` in `core/ping.go` (with the one-character
separator it is used with). -/
def splitAndTrim (input : List Char) (sep : Char) : List (List Char) :=
  collectTrimmed (splitOnChar sep input)

/-- Loop body of `splitTargets`: keep the segments passing `keepTarget`. -/
def collectValid : List (List Char) → List (List Char)
  | [] => []
  | t :: rest =>
    if keepTarget t then t :: collectValid rest else collectValid rest

/-- Model of `splitTargets` in `core/ping.go`. -/
def splitTargets (targets : List Char) : List (List Char) :=
  collectValid (splitAndTrim targets ',')

end Speedgo

namespace Speedgo

/-! ### ICMP echo session (`core/ping.go`, `pingSession.ping`)

One ping attempt interacts with the socket and the network; those effects are
supplied as an explicit `AttemptEnv`. The pre-read flush loop (draining stale
replies with a near-zero deadline) has no effect on the attempt's outcome and
is not reflected in the state. -/

/-- Parsed body of an inbound ICMP message (`icmp.Echo` or anything else). -/
inductive ICMPBody where
  | echo (id seq : Nat) (data : List Nat)
  | other
deriving DecidableEq, Repr

/-- Parsed inbound ICMP message (`icmp.Message`); the code field is carried
but never inspected by the matching logic. -/
structure ICMPMessage where
  type : Nat
  code : Nat
  body : ICMPBody
deriving DecidableEq, Repr

/-- Wire value of `ipv4.ICMPTypeEchoReply`. -/
def ICMPTypeEchoReply : Nat := 0

/-- Error outcomes of the ping path, one per `return ..., err` site. -/
inductive PingError where
  | marshalError
  | flushDeadlineError
  | sendError
  | readDeadlineError
  | readError
  | parseError
  | invalidEchoReply
  | wrongReply
  | unexpectedType (t : Nat)
  | resolveError
  | socketError
  | cancelled
deriving DecidableEq, Repr

/-- Environment of one ping attempt: whether each fallible socket operation
succeeds, what the blocking read produces (`none` = timeout or read error;
`some none` = bytes that fail ICMP parsing; `some (some m)` = a parsed
message), and the measured elapsed time for a successful attempt. -/
structure AttemptEnv where
  marshalOk : Bool
  flushDeadlineOk : Bool
  sendOk : Bool
  readDeadlineOk : Bool
  readOutcome : Option (Option ICMPMessage)
  elapsed : Nat

/-- The reply switch at the end of `pingSession.ping`: an Echo-Reply whose
body matches the session identifier and current sequence number yields the
round-trip time; everything else is an error. -/
def pingReplySwitch (id seq : Nat) (rm : ICMPMessage) (elapsed : Nat) :
    Except PingError Nat :=
  if rm.type = ICMPTypeEchoReply then
    match rm.body with
    | ICMPBody.echo rid rseq _ =>
      if rid ≠ id || rseq ≠ seq then Except.error PingError.wrongReply
      else Except.ok elapsed
    | ICMPBody.other => Except.error PingError.invalidEchoReply
  else Except.error (PingError.unexpectedType rm.type)

/-- Model of `pingSession.ping`: marshal, flush deadline, send, read
deadline, blocking read, parse, then the reply switch. -/
def ping (id seq : Nat) (env : AttemptEnv) : Except PingError Nat :=
  if !env.marshalOk then Except.error PingError.marshalError
  else if !env.flushDeadlineOk then Except.error PingError.flushDeadlineError
  else if !env.sendOk then Except.error PingError.sendError
  else if !env.readDeadlineOk then Except.error PingError.readDeadlineError
  else
    match env.readOutcome with
    | none => Except.error PingError.readError
    | some none => Except.error PingError.parseError
    | some (some rm) => pingReplySwitch id seq rm env.elapsed

/-! ### Per-target results and statistics (`PingResult`, `calculateStats`) -/

/-- Model of the `PingResult` struct; durations are nanosecond counts. -/
structure PingResult where
  target : List Char
  RTTs : List Nat := []
  MinRTT : Nat := 0
  MaxRTT : Nat := 0
  AvgRTT : Nat := 0
  Lost : Nat := 0
  Errors : List PingError := []
deriving DecidableEq, Repr

/-- Model of `PingResult.calculateStats`: leave everything untouched for an
empty sample list; otherwise fold over the samples computing the total and
the running minimum and maximum (both seeded with the first sample) and set
the average to the integer quotient of total by sample count. -/
def calculateStats (r : PingResult) : PingResult :=
  match r.RTTs with
  | [] => r
  | first :: rest =>
    let acc := (first :: rest).foldl
      (fun (p : Nat × Nat × Nat) rtt =>
        (p.1 + rtt,
         if rtt < p.2.1 then rtt else p.2.1,
         if p.2.2 < rtt then rtt else p.2.2))
      (0, first, first)
    { r with
      MinRTT := acc.2.1
      MaxRTT := acc.2.2
      AvgRTT := acc.1 / (first :: rest).length }

/-! ### The per-target ping loop (`pingTarget`) -/

/-- What the iteration of the loop observes: either the cancellation channel
is ready, or an attempt runs against the given environment. -/
inductive LoopEvent where
  | cancelledEv
  | attempt (env : AttemptEnv)

/-- Whether a loop event is a cancellation. -/
def LoopEvent.isCancel : LoopEvent → Bool
  | LoopEvent.cancelledEv => true
  | LoopEvent.attempt _ => false

/-- Mutable state of one target's loop: the result under construction, the
session's sequence counter, and ghost traces of the identifier and sequence
number used by each attempt (for stating the session invariants). -/
structure LoopState where
  result : PingResult
  seq : Nat
  sentIds : List Nat := []
  sentSeqs : List Nat := []

/-- One loop iteration's attempt branch: run `ping`, then either count a
loss and record the error, or append the measured round-trip time; the
sequence counter is incremented afterwards in both cases (`session.seq++`). -/
def loopRecord (id : Nat) (st : LoopState) (env : AttemptEnv) : LoopState :=
  let st1 := { st with
    sentIds := st.sentIds ++ [id]
    sentSeqs := st.sentSeqs ++ [st.seq] }
  match ping id st.seq env with
  | Except.error e =>
    { st1 with
      result := { st1.result with
        Lost := st1.result.Lost + 1
        Errors := st1.result.Errors ++ [e] }
      seq := st1.seq + 1 }
  | Except.ok rtt =>
    { st1 with
      result := { st1.result with RTTs := st1.result.RTTs ++ [rtt] }
      seq := st1.seq + 1 }

/-- The iteration loop of `pingTarget` from iteration `i` with the given
number of iterations remaining. Returns the final state and whether the loop
ran to completion (`false` when the context was found cancelled, in which
case the cancellation error is recorded and the loop returns at once). -/
def pingLoopFrom (id : Nat) (events : Nat → LoopEvent) :
    Nat → Nat → LoopState → LoopState × Bool
  | _, 0, st => (st, true)
  | i, rem + 1, st =>
    match events i with
    | LoopEvent.cancelledEv =>
      ({ st with result := { st.result with
          Errors := st.result.Errors ++ [PingError.cancelled] } }, false)
    | LoopEvent.attempt env => pingLoopFrom id events (i + 1) rem (loopRecord id st env)

/-- Number of attempts the loop executes starting at iteration `i` with the
given iterations remaining: all of them, or the number before the first
cancellation. -/
def stepsUntilCancel (events : Nat → LoopEvent) : Nat → Nat → Nat
  | _, 0 => 0
  | i, rem + 1 =>
    match events i with
    | LoopEvent.cancelledEv => 0
    | LoopEvent.attempt _ => stepsUntilCancel events (i + 1) rem + 1

/-- Session identifier: `os.Getpid() & 0xffff`. -/
def pingSessionId (pid : Nat) : Nat := pid &&& 0xffff

/-- Environment of one target: the outcome of address resolution, of ICMP
socket creation, and the per-iteration loop events. -/
structure TargetEnv where
  resolved : Option (List Char)
  socketOk : Bool
  events : Nat → LoopEvent

/-- Model of `pingTarget`. Resolution failure or socket-creation failure is
recorded locally: the error is appended, `Lost` is set to the full count and
the result is returned without running the loop. Otherwise the loop runs;
`calculateStats` is applied only when the loop was not cancelled. The
deferred `conn.Close()` error append mutates a local variable after the
return value has been copied (the function has no named result), so it can
never reach the caller and is not modelled. -/
def pingTarget (pid count : Nat) (target : List Char) (env : TargetEnv) :
    PingResult :=
  let base : PingResult := { target := target }
  match env.resolved with
  | none => { base with Errors := [PingError.resolveError], Lost := count }
  | some _ =>
    if !env.socketOk then
      { base with Errors := [PingError.socketError], Lost := count }
    else
      let out := pingLoopFrom (pingSessionId pid) env.events 0 count
        { result := base, seq := 1 }
      if out.2 then calculateStats out.1.result else out.1.result

/-- Model of `pingTargets`: every goroutine writes only `results[idx]`, and
the wait-group joins them all before the slice is returned, so the bounded
concurrency is observationally a map in input order. -/
def pingTargets (pid count : Nat) (targets : List (List Char × TargetEnv)) :
    List PingResult :=
  targets.map fun p => pingTarget pid count p.1 p.2

/-- Target-list part of `NewPingConfig`: fails exactly when no valid target
remains after resolution. -/
def NewPingConfig (targetsStr : List Char) : Option (List (List Char)) :=
  let ts := splitTargets targetsStr
  if ts.isEmpty then none else some ts

/-- Model of `RunPing`: a configuration error aborts; otherwise all targets
are pinged and the call succeeds regardless of per-target outcomes. -/
def RunPing (pid count : Nat) (targetsStr : List Char)
    (envOf : List Char → TargetEnv) : Except (List Char) (List PingResult) :=
  match NewPingConfig targetsStr with
  | none => Except.error ("no valid targets provided".data)
  | some ts => Except.ok (pingTargets pid count (ts.map fun t => (t, envOf t)))

end Speedgo

namespace Speedgo

/-! ### Transfer engine (`core/download.go`, `core/upload.go`)

The collector of `measureDownloadSpeed` and `measureUploadSpeed` is a select
loop draining the byte channel and the error channel until the byte channel
is closed. Its inputs are modelled as the sequence of receptions the select
performs before it observes closure. -/

/-- One reception of the collector: a byte count from the byte channel, or an
error value from the error channel (`none` models a nil error, as received
after the error channel is closed). -/
inductive XferEvent where
  | bytes (n : Int)
  | errEv (e : Option (List Char))
deriving DecidableEq, Repr

/-- The collector loop: add every received byte count to the accumulator and
remember the most recent non-nil error; return both at channel closure. -/
def collectLoop : List XferEvent → Int → Option (List Char) →
    Int × Option (List Char)
  | [], total, lastError => (total, lastError)
  | XferEvent.bytes n :: rest, total, lastError =>
    collectLoop rest (total + n) lastError
  | XferEvent.errEv e :: rest, total, lastError =>
    collectLoop rest total (match e with | some s => some s | none => lastError)

/-- Model of the `DownloadStats` struct (`float64` fields over `ℚ`). -/
structure DownloadStats where
  BytesReceived : Int
  Duration : ℚ
  Speed : ℚ
  Error : Option (List Char)
deriving DecidableEq, Repr

/-- Model of the `UploadStats` struct (`float64` fields over `ℚ`). -/
structure UploadStats where
  BytesSent : Int
  Duration : ℚ
  Speed : ℚ
  Error : Option (List Char)
deriving DecidableEq, Repr

/-- Model of the collection and finalization of `measureDownloadSpeed`:
`elapsed` is the wall-clock seconds between the start timestamp and the
collector observing closure. -/
def measureDownloadSpeed (trace : List XferEvent) (elapsed : ℚ) :
    DownloadStats :=
  let c := collectLoop trace 0 none
  { BytesReceived := c.1
    Duration := elapsed
    Speed := ((c.1 * 8 : Int) : ℚ) / (1000 * 1000 * elapsed)
    Error := c.2 }

/-- Model of the collection and finalization of `measureUploadSpeed`. -/
def measureUploadSpeed (trace : List XferEvent) (elapsed : ℚ) : UploadStats :=
  let c := collectLoop trace 0 none
  { BytesSent := c.1
    Duration := elapsed
    Speed := ((c.1 * 8 : Int) : ℚ) / (1000 * 1000 * elapsed)
    Error := c.2 }

/-- Total of all byte counts in a collector trace (specification side). -/
def sumBytes (trace : List XferEvent) : Int :=
  (trace.filterMap fun e =>
    match e with
    | XferEvent.bytes n => some n
    | XferEvent.errEv _ => none).sum

/-- Most recent non-nil error of a collector trace (specification side). -/
def lastErrSpec (trace : List XferEvent) : Option (List Char) :=
  (trace.filterMap fun e =>
    match e with
    | XferEvent.errEv (some s) => some s
    | _ => none).getLast?

/-! ### Download worker URL selection (`downloadWorker`) -/

/-- The built-in CDN test files (`defaultTestFiles` in `core/download.go`). -/
def defaultTestFiles : List (List Char) :=
  ["https://speed.cloudflare.com/__down?bytes=25000000".data,
   "https://cdn.jsdelivr.net/gh/librespeed/speedtest-files@master/random4000x4000.jpg".data,
   "https://proof.ovh.net/files/100Mb.dat".data]

/-- URL chosen by a worker each iteration:
`defaultTestFiles[id%len(defaultTestFiles)]`. -/
def workerURL (id : Nat) : List Char :=
  defaultTestFiles.get ⟨id % defaultTestFiles.length, Nat.mod_lt id (by decide)⟩

/-- Per-iteration observation of a download worker: cancellation, or one
`downloadChunk` call (which may fail, triggering backoff and `continue`). -/
inductive WorkerEvent where
  | cancelledEv
  | chunk (failed : Bool)

/-- Model of the `downloadWorker` loop: the sequence of URLs requested, one
per iteration, until cancellation (fuel bounds the unrolling; the Go loop
exits only by cancellation). -/
def downloadWorker (id : Nat) (events : Nat → WorkerEvent) :
    Nat → Nat → List (List Char)
  | _, 0 => []
  | i, fuel + 1 =>
    match events i with
    | WorkerEvent.cancelledEv => []
    | WorkerEvent.chunk _ => workerURL id :: downloadWorker id events (i + 1) fuel

/-- Model of the flag set consumed by `parseDownloadConfig`. -/
structure DownloadFlags where
  url : List Char
  duration : Nat
  concurrency : Nat
  output : List Char
  verbose : Bool

/-- Model of the `DownloadConfig` struct: no URL field exists. -/
structure DownloadConfig where
  Duration : Nat
  Concurrency : Nat
  Verbose : Bool
deriving DecidableEq, Repr

/-- Model of `parseDownloadConfig`: only duration, concurrency and verbose
are read from the flags. -/
def parseDownloadConfig (f : DownloadFlags) : DownloadConfig :=
  { Duration := f.duration
    Concurrency := f.concurrency
    Verbose := f.verbose }

/-! ### Concrete environments used in closed evaluations -/

/-- Attempt environment whose blocking read always fails (a timeout). -/
def cexAttemptEnv : AttemptEnv :=
  { marshalOk := true
    flushDeadlineOk := true
    sendOk := true
    readDeadlineOk := true
    readOutcome := none
    elapsed := 0 }

/-- Environment for the concrete two-target run: ICMP socket creation fails
for target `a` and succeeds for target `b`. -/
def cexEnvOf (t : List Char) : TargetEnv :=
  if t = "a".data then
    { resolved := some ("10.0.0.1".data)
      socketOk := false
      events := fun _ => LoopEvent.attempt cexAttemptEnv }
  else
    { resolved := some ("10.0.0.2".data)
      socketOk := true
      events := fun _ => LoopEvent.attempt cexAttemptEnv }

end Speedgo

namespace Speedgo

/-! ### Helper lemmas -/

/-- Sanity checks of the `net.ParseIP` model on closed inputs, matching the
documented behaviour of the Go parser. -/
theorem parseIP_model_checks :
    splitTargets (" 1.2.3.4 , ,x y".data) = ["1.2.3.4".data] ∧
    parseIP ("1.2.3.4".data) = some [1, 2, 3, 4] ∧
    parseIP ("256.2.3.4".data) = none ∧
    parseIP ("1.2.3".data) = none ∧
    parseIP ("01.2.3.4".data) = none ∧
    parseIP ("::1".data) =
      some [0, 0, 0, 0, 0, 0, 0, 0, 0, 0, 0, 0, 0, 0, 0, 1] ∧
    parseIP ("1:2:3:4:5:6:7:8".data) =
      some [0, 1, 0, 2, 0, 3, 0, 4, 0, 5, 0, 6, 0, 7, 0, 8] ∧
    parseIP ("1::8".data) =
      some [0, 1, 0, 0, 0, 0, 0, 0, 0, 0, 0, 0, 0, 0, 0, 8] ∧
    parseIP ("1:2:3:4:5:6:7:8:9".data) = none ∧
    parseIP ("::ffff:1.2.3.4".data) =
      some [0, 0, 0, 0, 0, 0, 0, 0, 0, 0, 255, 255, 1, 2, 3, 4] ∧
    parseIP ("fe80::1%eth0".data) = none ∧
    parseIP ("1::2::3".data) = none ∧
    parseIP ("hostname".data) = none := by
  decide

theorem collectTrimmed_eq_filter (l : List (List Char)) :
    collectTrimmed l = (l.map trimSpace).filter (fun t => !t.isEmpty) := by
  induction l with
  | nil => rfl
  | cons x xs ih =>
    simp only [collectTrimmed, List.map_cons, List.filter_cons]
    by_cases h : (trimSpace x).isEmpty <;> simp [h, ih]

theorem collectValid_eq_filter (l : List (List Char)) :
    collectValid l = l.filter keepTarget := by
  induction l with
  | nil => rfl
  | cons x xs ih =>
    simp only [collectValid, List.filter_cons]
    by_cases h : keepTarget x <;> simp [h, ih]

end Speedgo

namespace Speedgo

/-- Claim C1 (amended): the target resolver splits its input on commas,
trims Unicode whitespace from each segment, discards segments that become
empty, keeps a segment exactly when it parses as an IPv4/IPv6 literal or
passes the permissive hostname check (non-empty, at most 255 bytes, no
embedded space character), and returns the kept entries in input order
without deduplication; every returned entry is non-empty and satisfies the
keep condition. -/
theorem splitTargets_amended (s : List Char) :
    splitTargets s =
      (((splitOnChar ',' s).map trimSpace).filter
        (fun t => !t.isEmpty)).filter keepTarget ∧
    (splitTargets s).all (fun t => !t.isEmpty && keepTarget t) = true := by
  have hpipe : splitTargets s =
      (((splitOnChar ',' s).map trimSpace).filter
        (fun t => !t.isEmpty)).filter keepTarget := by
    simp [splitTargets, splitAndTrim, collectTrimmed_eq_filter,
      collectValid_eq_filter]
  refine ⟨hpipe, ?_⟩
  rw [hpipe]
  simp only [List.all_eq_true]
  intro t ht
  have h1 := List.of_mem_filter ht
  have h2 := List.of_mem_filter (List.mem_of_mem_filter ht)
  simp [h1, h2]

/-- Claim C1 (counterexample): the resolver does not deduplicate
(`"a,a"` yields the entry twice), and it keeps a segment with an embedded
tab — a whitespace character — because the code only rejects the space
character, even though the segment is not an IP literal. -/
theorem splitTargets_claim_counterexample :
    splitTargets ("a,a".data) = ["a".data, "a".data] ∧
    (splitTargets ("a,a".data)).dedup ≠ splitTargets ("a,a".data) ∧
    splitTargets ("a\tb".data) = ["a\tb".data] ∧
    ("a\tb".data).any goIsSpace = true ∧
    parseIP ("a\tb".data) = none := by
  refine ⟨by decide, by decide, by decide, by decide, by decide⟩

end Speedgo

namespace Speedgo

/-- Claim C2: a ping attempt returns a round-trip time exactly when every
socket operation succeeds and the inbound packet parses to an Echo-Reply
whose identifier and sequence number both equal the ones just sent (the
reply's code byte is irrelevant); any other parsed message makes the attempt
fail, and in the per-target loop a failed attempt increments the loss counter
and contributes no sample. -/
theorem ping_reply_matching :
    (∀ (id seq : Nat) (env : AttemptEnv),
      (∃ d, ping id seq env = Except.ok d) ↔
        (env.marshalOk = true ∧ env.flushDeadlineOk = true ∧
         env.sendOk = true ∧ env.readDeadlineOk = true ∧
         ∃ c data, env.readOutcome =
           some (some (ICMPMessage.mk ICMPTypeEchoReply c
             (ICMPBody.echo id seq data))))) ∧
    (∀ (id : Nat) (st : LoopState) (env : AttemptEnv),
      (loopRecord id st env).result.Lost =
        st.result.Lost +
          (match ping id st.seq env with
           | Except.error _ => 1
           | Except.ok _ => 0) ∧
      (loopRecord id st env).result.RTTs =
        st.result.RTTs ++
          (match ping id st.seq env with
           | Except.error _ => []
           | Except.ok d => [d])) := by
  constructor
  · intro id seq env
    obtain ⟨m, f, sd, rd, ro, el⟩ := env
    cases m <;> cases f <;> cases sd <;> cases rd <;> simp [ping]
    match ro with
    | none => simp
    | some none => simp
    | some (some rm) =>
      obtain ⟨ty, co, body⟩ := rm
      simp only [pingReplySwitch]
      by_cases hty : ty = ICMPTypeEchoReply
      · subst hty
        cases body with
        | echo rid rseq rdata =>
          by_cases hid : rid = id
          · by_cases hseq : rseq = seq
            · subst hid; subst hseq; simp
            · simp [hid, hseq]
          · simp [hid]
        | other => simp
      · simp [hty]
  · intro id st env
    unfold loopRecord
    cases h : ping id st.seq env <;> simp [h]

end Speedgo

namespace Speedgo

theorem loopRecord_counts (id : Nat) (st : LoopState) (env : AttemptEnv) :
    (loopRecord id st env).result.RTTs.length +
        (loopRecord id st env).result.Lost =
      st.result.RTTs.length + st.result.Lost + 1 ∧
    (loopRecord id st env).seq = st.seq + 1 ∧
    (loopRecord id st env).sentSeqs = st.sentSeqs ++ [st.seq] ∧
    (loopRecord id st env).sentIds = st.sentIds ++ [id] := by
  unfold loopRecord
  cases ping id st.seq env <;> simp <;> omega

theorem pingLoopFrom_stats (id : Nat) (events : Nat → LoopEvent) :
    ∀ (rem i : Nat) (st : LoopState),
      (pingLoopFrom id events i rem st).1.result.RTTs.length +
          (pingLoopFrom id events i rem st).1.result.Lost =
        st.result.RTTs.length + st.result.Lost +
          stepsUntilCancel events i rem ∧
      (pingLoopFrom id events i rem st).1.seq =
        st.seq + stepsUntilCancel events i rem ∧
      (pingLoopFrom id events i rem st).1.sentSeqs =
        st.sentSeqs ++ List.range' st.seq (stepsUntilCancel events i rem) ∧
      (pingLoopFrom id events i rem st).1.sentIds =
        st.sentIds ++ List.replicate (stepsUntilCancel events i rem) id := by
  intro rem
  induction rem with
  | zero => intro i st; simp [pingLoopFrom, stepsUntilCancel]
  | succ n ih =>
    intro i st
    cases h : events i with
    | cancelledEv => simp [pingLoopFrom, stepsUntilCancel, h]
    | attempt env =>
      have hrec := ih (i + 1) (loopRecord id st env)
      have hone := loopRecord_counts id st env
      simp only [pingLoopFrom, stepsUntilCancel, h]
      refine ⟨?_, ?_, ?_, ?_⟩
      · rw [hrec.1]; omega
      · rw [hrec.2.1, hone.2.1]; omega
      · rw [hrec.2.2.1, hone.2.2.1, hone.2.1, List.range'_succ]
        simp
      · rw [hrec.2.2.2, hone.2.2.2, List.replicate_succ]
        simp

theorem stepsUntilCancel_le (events : Nat → LoopEvent) :
    ∀ (rem i : Nat), stepsUntilCancel events i rem ≤ rem := by
  intro rem
  induction rem with
  | zero => intro i; simp [stepsUntilCancel]
  | succ n ih =>
    intro i
    cases h : events i with
    | cancelledEv => simp [stepsUntilCancel, h]
    | attempt env =>
      simp only [stepsUntilCancel, h]
      have := ih (i + 1)
      omega

theorem stepsUntilCancel_eq_iff (events : Nat → LoopEvent) :
    ∀ (rem i : Nat),
      stepsUntilCancel events i rem = rem ↔
        ∀ j, j < rem → (events (i + j)).isCancel = false := by
  intro rem
  induction rem with
  | zero => intro i; simp [stepsUntilCancel]
  | succ n ih =>
    intro i
    cases h : events i with
    | cancelledEv =>
      simp only [stepsUntilCancel, h]
      constructor
      · intro he; omega
      · intro hall
        have h0 := hall 0 (Nat.succ_pos n)
        rw [Nat.add_zero, h] at h0
        simp [LoopEvent.isCancel] at h0
    | attempt env =>
      simp only [stepsUntilCancel, h]
      constructor
      · intro he j hj
        cases j with
        | zero => rw [Nat.add_zero, h]; rfl
        | succ k =>
          have hn : stepsUntilCancel events (i + 1) n = n := by omega
          have hk := (ih (i + 1)).1 hn k (by omega)
          have e : i + 1 + k = i + (k + 1) := by omega
          rw [e] at hk
          exact hk
      · intro hall
        have hsh : ∀ j, j < n → (events (i + 1 + j)).isCancel = false := by
          intro j hj
          have hj1 := hall (j + 1) (by omega)
          have e : i + (j + 1) = i + 1 + j := by omega
          rw [e] at hj1
          exact hj1
        have := (ih (i + 1)).2 hsh
        omega

theorem calculateStats_preserves (r : PingResult) :
    (calculateStats r).RTTs = r.RTTs ∧ (calculateStats r).Lost = r.Lost ∧
    (calculateStats r).target = r.target ∧
    (calculateStats r).Errors = r.Errors := by
  unfold calculateStats
  split <;> simp

end Speedgo

namespace Speedgo

/-- Claim C3: for a target whose setup succeeds, the number of collected
round-trip samples plus the loss count equals the number of attempts the
loop actually executed; that number never exceeds the configured count, and
it equals the count exactly when no iteration observed cancellation (so an
early-cancelled loop stops at the first cancelled iteration and the sum is
strictly below the count). -/
theorem ping_loop_accounting (pid count : Nat) (t r : List Char)
    (ev : Nat → LoopEvent) :
    (pingTarget pid count t ⟨some r, true, ev⟩).RTTs.length +
        (pingTarget pid count t ⟨some r, true, ev⟩).Lost =
      stepsUntilCancel ev 0 count ∧
    stepsUntilCancel ev 0 count ≤ count ∧
    (stepsUntilCancel ev 0 count = count ↔
      ∀ j, j < count → (ev j).isCancel = false) := by
  refine ⟨?_, stepsUntilCancel_le ev count 0, ?_⟩
  · have hstats := pingLoopFrom_stats (pingSessionId pid) ev count 0
      ⟨{ target := t }, 1, [], []⟩
    simp only [pingTarget, Bool.not_true, Bool.false_eq_true, if_false]
    split
    · rename_i hdone
      have hpres := calculateStats_preserves
        (pingLoopFrom (pingSessionId pid) ev 0 count
          ⟨{ target := t }, 1, [], []⟩).1.result
      rw [hpres.1, hpres.2.1, hstats.1]
      simp
    · rw [hstats.1]; simp
  · have := stepsUntilCancel_eq_iff ev count 0
    simpa using this

/-- Claim C8: the echo session identifier is the process id masked to 16
bits — hence below 65536 — and every attempt of a session's loop uses that
same identifier; the sequence counter starts at 1, is used once per attempt,
and is incremented by exactly 1 after every attempt regardless of outcome, so
the sequence numbers sent are consecutive from 1. -/
theorem session_identifier_sequence (pid count : Nat) (ev : Nat → LoopEvent)
    (base : PingResult) :
    pingSessionId pid < 65536 ∧
    (pingLoopFrom (pingSessionId pid) ev 0 count
        ⟨base, 1, [], []⟩).1.sentIds =
      List.replicate (stepsUntilCancel ev 0 count) (pingSessionId pid) ∧
    (pingLoopFrom (pingSessionId pid) ev 0 count
        ⟨base, 1, [], []⟩).1.sentSeqs =
      List.range' 1 (stepsUntilCancel ev 0 count) ∧
    (pingLoopFrom (pingSessionId pid) ev 0 count
        ⟨base, 1, [], []⟩).1.seq =
      1 + stepsUntilCancel ev 0 count ∧
    (∀ (st : LoopState) (env : AttemptEnv),
      (loopRecord (pingSessionId pid) st env).seq = st.seq + 1) := by
  have h := pingLoopFrom_stats (pingSessionId pid) ev count 0 ⟨base, 1, [], []⟩
  refine ⟨?_, ?_, ?_, ?_, ?_⟩
  · have hle : pid &&& 65535 ≤ 65535 := Nat.and_le_right
    have : pingSessionId pid ≤ 65535 := hle
    omega
  · simpa using h.2.2.2
  · simpa using h.2.2.1
  · have := h.2.1
    simpa [Nat.add_comm] using this
  · intro st env
    exact (loopRecord_counts (pingSessionId pid) st env).2.1

end Speedgo

namespace Speedgo

theorem statsFold_eq (l : List Nat) :
    ∀ (t m M : Nat),
      l.foldl
        (fun (p : Nat × Nat × Nat) rtt =>
          (p.1 + rtt,
           if rtt < p.2.1 then rtt else p.2.1,
           if p.2.2 < rtt then rtt else p.2.2))
        (t, m, M) =
      (t + l.sum, l.foldl Nat.min m, l.foldl Nat.max M) := by
  induction l with
  | nil => intro t m M; simp
  | cons a l ih =>
    intro t m M
    simp only [List.foldl_cons, List.sum_cons]
    rw [ih]
    have h1 : (if a < m then a else m) = Nat.min m a := by
      have e : Nat.min m a = min m a := rfl
      rw [e, min_def]; split <;> split <;> omega
    have h2 : (if M < a then a else M) = Nat.max M a := by
      have e : Nat.max M a = max M a := rfl
      rw [e, max_def]; split <;> split <;> omega
    rw [h1, h2]
    have h3 : t + a + l.sum = t + (a + l.sum) := by omega
    rw [h3]

theorem foldl_min_le_init (l : List Nat) : ∀ a : Nat, l.foldl Nat.min a ≤ a := by
  induction l with
  | nil => intro a; simp
  | cons b l ih =>
    intro a
    simp only [List.foldl_cons]
    exact le_trans (ih (Nat.min a b)) (Nat.min_le_left a b)

theorem init_le_foldl_max (l : List Nat) : ∀ a : Nat, a ≤ l.foldl Nat.max a := by
  induction l with
  | nil => intro a; simp
  | cons b l ih =>
    intro a
    simp only [List.foldl_cons]
    exact le_trans (Nat.le_max_left a b) (ih (Nat.max a b))

theorem mul_foldl_min_le_sum (l : List Nat) :
    ∀ a : Nat, (l.length + 1) * l.foldl Nat.min a ≤ a + l.sum := by
  induction l with
  | nil => intro a; simp
  | cons b l ih =>
    intro a
    simp only [List.foldl_cons, List.sum_cons, List.length_cons]
    have h1 := ih (Nat.min a b)
    have h2 : l.foldl Nat.min (Nat.min a b) ≤ Nat.min a b :=
      foldl_min_le_init l (Nat.min a b)
    have h3 : Nat.min a b ≤ a := Nat.min_le_left a b
    have h4 : Nat.min a b ≤ b := Nat.min_le_right a b
    have hsplit : (l.length + 1 + 1) * l.foldl Nat.min (Nat.min a b) =
        (l.length + 1) * l.foldl Nat.min (Nat.min a b) +
          l.foldl Nat.min (Nat.min a b) := by ring
    omega

theorem sum_le_mul_foldl_max (l : List Nat) :
    ∀ a : Nat, a + l.sum ≤ (l.length + 1) * l.foldl Nat.max a := by
  induction l with
  | nil => intro a; simp
  | cons b l ih =>
    intro a
    simp only [List.foldl_cons, List.sum_cons, List.length_cons]
    have h1 := ih (Nat.max a b)
    have h2 : Nat.max a b ≤ l.foldl Nat.max (Nat.max a b) :=
      init_le_foldl_max l (Nat.max a b)
    have h3 : a ≤ Nat.max a b := Nat.le_max_left a b
    have h4 : b ≤ Nat.max a b := Nat.le_max_right a b
    have hsplit : (l.length + 1 + 1) * l.foldl Nat.max (Nat.max a b) =
        (l.length + 1) * l.foldl Nat.max (Nat.max a b) +
          l.foldl Nat.max (Nat.max a b) := by ring
    omega

theorem calculateStats_cons (a : Nat) (l : List Nat) (r0 : PingResult) :
    calculateStats { r0 with RTTs := a :: l } =
      { r0 with
        RTTs := a :: l
        MinRTT := l.foldl Nat.min a
        MaxRTT := l.foldl Nat.max a
        AvgRTT := (a + l.sum) / (l.length + 1) } := by
  simp only [calculateStats]
  rw [statsFold_eq]
  simp [List.foldl_cons, Nat.min_self, Nat.max_self]

end Speedgo

namespace Speedgo

/-- Claim C4: on a non-empty sample list `a :: l`, `calculateStats` sets
`MinRTT` to the minimum sample, `MaxRTT` to the maximum sample and `AvgRTT`
to the integer quotient of the sample sum by the sample count, and
`MinRTT ≤ AvgRTT ≤ MaxRTT` holds; on an empty sample list the result is
returned unchanged, leaving the three statistics at their zero values. -/
theorem calculateStats_correct (a : Nat) (l : List Nat) (r0 : PingResult) :
    (a :: l).min? = some ((calculateStats { r0 with RTTs := a :: l }).MinRTT) ∧
    (a :: l).max? = some ((calculateStats { r0 with RTTs := a :: l }).MaxRTT) ∧
    (calculateStats { r0 with RTTs := a :: l }).AvgRTT =
      (a :: l).sum / (a :: l).length ∧
    (calculateStats { r0 with RTTs := a :: l }).MinRTT ≤
      (calculateStats { r0 with RTTs := a :: l }).AvgRTT ∧
    (calculateStats { r0 with RTTs := a :: l }).AvgRTT ≤
      (calculateStats { r0 with RTTs := a :: l }).MaxRTT ∧
    calculateStats { r0 with RTTs := [] } = { r0 with RTTs := [] } := by
  rw [calculateStats_cons]
  dsimp only
  refine ⟨rfl, rfl, by simp, ?_, ?_, rfl⟩
  · have hpos : 0 < l.length + 1 := Nat.succ_pos _
    rw [Nat.le_div_iff_mul_le hpos, Nat.mul_comm]
    exact mul_foldl_min_le_sum l a
  · exact Nat.div_le_of_le_mul (sum_le_mul_foldl_max l a)

end Speedgo

namespace Speedgo

theorem getLast?_cons_or {α : Type} (s : α) (L : List α) :
    (s :: L).getLast? = L.getLast?.or (some s) := by
  rw [List.getLast?_cons]
  cases L.getLast? <;> simp [Option.or]

theorem collectLoop_spec (trace : List XferEvent) :
    ∀ (t : Int) (e : Option (List Char)),
      collectLoop trace t e = (t + sumBytes trace, (lastErrSpec trace).or e) := by
  induction trace with
  | nil => intro t e; simp [collectLoop, sumBytes, lastErrSpec]
  | cons x rest ih =>
    intro t e
    cases x with
    | bytes n =>
      have hs : sumBytes (XferEvent.bytes n :: rest) = n + sumBytes rest := by
        simp [sumBytes]
      have hl : lastErrSpec (XferEvent.bytes n :: rest) = lastErrSpec rest := by
        simp [lastErrSpec]
      have hc : collectLoop (XferEvent.bytes n :: rest) t e =
          collectLoop rest (t + n) e := rfl
      rw [hc, ih, hs, hl]
      have harith : t + n + sumBytes rest = t + (n + sumBytes rest) := by omega
      rw [harith]
    | errEv eo =>
      cases eo with
      | none =>
        have hs : sumBytes (XferEvent.errEv none :: rest) = sumBytes rest := by
          simp [sumBytes]
        have hl : lastErrSpec (XferEvent.errEv none :: rest) =
            lastErrSpec rest := by
          simp [lastErrSpec]
        have hc : collectLoop (XferEvent.errEv none :: rest) t e =
            collectLoop rest t e := rfl
        rw [hc, ih, hs, hl]
      | some s =>
        have hs : sumBytes (XferEvent.errEv (some s) :: rest) =
            sumBytes rest := by
          simp [sumBytes]
        have hl : lastErrSpec (XferEvent.errEv (some s) :: rest) =
            (lastErrSpec rest).or (some s) := by
          simp only [lastErrSpec, List.filterMap_cons]
          exact getLast?_cons_or s _
        have hc : collectLoop (XferEvent.errEv (some s) :: rest) t e =
            collectLoop rest t (some s) := rfl
        rw [hc, ih, hs, hl]
        cases hx : lastErrSpec rest <;> simp [Option.or]

end Speedgo

namespace Speedgo

/-- Claim C5: for both the download and the upload engine, the reported
`Speed` equals `totalBytes * 8 / (1_000_000 * elapsedSeconds)` — megabits
per second with decimal mega — where `totalBytes` is the total of all byte
counts the collector received before observing channel closure and
`elapsedSeconds` the wall-clock time recorded at closure. -/
theorem transfer_speed_formula (trace : List XferEvent) (elapsed : ℚ) :
    (measureDownloadSpeed trace elapsed).Speed =
      ((sumBytes trace * 8 : Int) : ℚ) / (1000000 * elapsed) ∧
    (measureUploadSpeed trace elapsed).Speed =
      ((sumBytes trace * 8 : Int) : ℚ) / (1000000 * elapsed) ∧
    (measureDownloadSpeed trace elapsed).BytesReceived = sumBytes trace ∧
    (measureUploadSpeed trace elapsed).BytesSent = sumBytes trace ∧
    (measureDownloadSpeed trace elapsed).Duration = elapsed ∧
    (measureUploadSpeed trace elapsed).Duration = elapsed := by
  have h := collectLoop_spec trace 0 none
  have h1 : (collectLoop trace 0 none).1 = sumBytes trace := by
    rw [h]; simp
  refine ⟨?_, ?_, ?_, ?_, rfl, rfl⟩
  · show ((collectLoop trace 0 none).1 * 8 : Int) / ((1000 : ℚ) * 1000 * elapsed) =
      ((sumBytes trace * 8 : Int) : ℚ) / (1000000 * elapsed)
    rw [h1]
    norm_num
  · show ((collectLoop trace 0 none).1 * 8 : Int) / ((1000 : ℚ) * 1000 * elapsed) =
      ((sumBytes trace * 8 : Int) : ℚ) / (1000000 * elapsed)
    rw [h1]
    norm_num
  · exact h1
  · exact h1

/-- Claim C7: the collector aggregates every byte report in the trace — byte
counts arriving after an error are still added, so errors never abort
aggregation — and the error surfaced in the final statistics is the most
recent non-nil error received over the whole trace (nil when none was
received), for both the download and the upload engine. -/
theorem transfer_last_error (trace tr1 tr2 : List XferEvent) (elapsed : ℚ)
    (e : Option (List Char)) :
    (measureDownloadSpeed trace elapsed).Error = lastErrSpec trace ∧
    (measureUploadSpeed trace elapsed).Error = lastErrSpec trace ∧
    (measureDownloadSpeed (tr1 ++ XferEvent.errEv e :: tr2) elapsed).BytesReceived =
      sumBytes tr1 + sumBytes tr2 ∧
    (measureUploadSpeed (tr1 ++ XferEvent.errEv e :: tr2) elapsed).BytesSent =
      sumBytes tr1 + sumBytes tr2 := by
  have h := collectLoop_spec trace 0 none
  have h2 : (collectLoop trace 0 none).2 = lastErrSpec trace := by
    rw [h]; cases lastErrSpec trace <;> simp [Option.or]
  have hmid : sumBytes (tr1 ++ XferEvent.errEv e :: tr2) =
      sumBytes tr1 + sumBytes tr2 := by
    simp [sumBytes, List.filterMap_append]
  have hb := collectLoop_spec (tr1 ++ XferEvent.errEv e :: tr2) 0 none
  have hb1 : (collectLoop (tr1 ++ XferEvent.errEv e :: tr2) 0 none).1 =
      sumBytes tr1 + sumBytes tr2 := by
    rw [hb]; simp [hmid]
  exact ⟨h2, h2, hb1, hb1⟩

end Speedgo

namespace Speedgo

/-- Claim C6 (counterexample): with two targets and socket creation failing
for the first, the run does not terminate — `RunPing` still returns a
successful result list containing both targets, the failing one reported
locally with `Lost` equal to the full count. -/
theorem run_ping_socket_failure_counterexample :
    RunPing 7 2 ("a,b".data) cexEnvOf =
      Except.ok
        [{ target := "a".data, RTTs := [], MinRTT := 0, MaxRTT := 0,
           AvgRTT := 0, Lost := 2, Errors := [PingError.socketError] },
         { target := "b".data, RTTs := [], MinRTT := 0, MaxRTT := 0,
           AvgRTT := 0, Lost := 2,
           Errors := [PingError.readError, PingError.readError] }] := by
  rfl

/-- Claim C6 (amended): a failure to create the raw ICMP socket for a target
is handled locally inside that target's loop — the target yields a result
with the error recorded and `Lost` set to the full count — and `RunPing`
terminates the run only for the configuration error of an empty resolved
target list; otherwise it returns the per-target results of all targets. -/
theorem socket_failure_handled_locally (pid count : Nat) (t r : List Char)
    (ev : Nat → LoopEvent) (targetsStr : List Char)
    (envOf : List Char → TargetEnv) :
    pingTarget pid count t
        { resolved := some r, socketOk := false, events := ev } =
      { target := t, RTTs := [], MinRTT := 0, MaxRTT := 0, AvgRTT := 0,
        Lost := count, Errors := [PingError.socketError] } ∧
    (RunPing pid count targetsStr envOf =
        Except.ok (pingTargets pid count
          ((splitTargets targetsStr).map fun x => (x, envOf x))) ∨
      (splitTargets targetsStr = [] ∧
        RunPing pid count targetsStr envOf =
          Except.error ("no valid targets provided".data))) := by
  constructor
  · rfl
  · cases hts : splitTargets targetsStr with
    | nil =>
      right
      exact ⟨rfl, by simp [RunPing, NewPingConfig, hts]⟩
    | cons x xs =>
      left
      simp [RunPing, NewPingConfig, hts]

end Speedgo

namespace Speedgo

/-- Claim C9: a download worker with index `id` requests the built-in URL
`defaultTestFiles[id % len(defaultTestFiles)]` on every iteration of its
loop, and the user-supplied URL flag has no influence: it is not even read
into the download configuration. -/
theorem download_worker_fixed_urls (id i fuel : Nat)
    (events : Nat → WorkerEvent) (f : DownloadFlags) (u : List Char) :
    (downloadWorker id events i fuel).all (fun s => s == workerURL id) =
      true ∧
    parseDownloadConfig { f with url := u } = parseDownloadConfig f := by
  constructor
  · induction fuel generalizing i with
    | zero => rfl
    | succ n ih =>
      cases h : events i with
      | cancelledEv => simp [downloadWorker, h]
      | chunk b =>
        simp only [downloadWorker, h, List.all_cons, beq_self_eq_true,
          Bool.true_and]
        exact ih (i + 1)
  · rfl

theorem getD_append_length {α : Type} (d b : α) :
    ∀ (l1 l2 : List α), (l1 ++ b :: l2).getD l1.length d = b := by
  intro l1
  induction l1 with
  | nil => intro l2; rfl
  | cons a l1 ih => intro l2; simpa using ih l2

/-- Claim C10: a target whose address resolution (or socket creation) fails
does not abort the run — the result list still has one entry per target, and
at the failing target's input position stands a result with an empty sample
list, `Lost` equal to the full configured count, and the failure recorded in
its error list. -/
theorem per_target_failure_isolated (pid count : Nat)
    (pre post : List (List Char × TargetEnv)) (t r : List Char)
    (ev ev2 : Nat → LoopEvent) (d : PingResult) :
    (pingTargets pid count (pre ++ (t, ⟨none, true, ev⟩) :: post)).length =
      pre.length + 1 + post.length ∧
    (pingTargets pid count
        (pre ++ (t, ⟨none, true, ev⟩) :: post)).getD pre.length d =
      { target := t, RTTs := [], MinRTT := 0, MaxRTT := 0, AvgRTT := 0,
        Lost := count, Errors := [PingError.resolveError] } ∧
    (pingTargets pid count
        (pre ++ (t, ⟨some r, false, ev2⟩) :: post)).getD pre.length d =
      { target := t, RTTs := [], MinRTT := 0, MaxRTT := 0, AvgRTT := 0,
        Lost := count, Errors := [PingError.socketError] } := by
  refine ⟨?_, ?_, ?_⟩
  · simp [pingTargets]
    omega
  · simp only [pingTargets, List.map_append, List.map_cons]
    rw [show pre.length =
        (pre.map fun p => pingTarget pid count p.1 p.2).length by simp]
    rw [getD_append_length]
    rfl
  · simp only [pingTargets, List.map_append, List.map_cons]
    rw [show pre.length =
        (pre.map fun p => pingTarget pid count p.1 p.2).length by simp]
    rw [getD_append_length]
    rfl

end Speedgo
